import Mathlib

/-!
Verification development for the HydroSense server model (server/model.py,
class SmartWaterManagement): a shallow embedding of the series store, the
training orchestration, the leak classifier and the weekly forecast surface,
with proofs about them.

Timestamps are modelled as integer minutes; one hour is 60 minutes and one
day is 1440 minutes.  Usage values are rationals; a missing value (a NaN
cell) is modelled as `none`.  The three fitted statistical models (ARIMA,
isolation forest, Prophet) are modelled abstractly by the data the
orchestration layer reads from them: a one-step forecast outcome (which may
fail), a scoring function, and a per-date prediction function.
-/

namespace HydroSense

/-- One row of the water usage table: (timestamp, water_usage).
A `none` usage value is a NaN cell. -/
abbrev Store := List (ℤ × Option ℚ)

/-- Keep only the last row for each timestamp, preserving order among the
kept rows: the pandas idiom `df[~df.index.duplicated(keep=last)]` used at
lines 20 and 44 of model.py. -/
def dedupKeepLast : Store → Store
  | [] => []
  | p :: rest =>
      if rest.any (fun q => q.1 == p.1) then dedupKeepLast rest
      else p :: dedupKeepLast rest

/-- Ordering of rows by timestamp, for sort_index. -/
def tsLe (p q : ℤ × Option ℚ) : Prop := p.1 ≤ q.1

instance : DecidableRel tsLe := fun p q => inferInstanceAs (Decidable (p.1 ≤ q.1))

/-- Dedupe keeping the last write per timestamp, then sort by timestamp:
the normalisation applied by load_data (line 20) and by the append path of
detect_leak (line 44). -/
def normalizeStore (df : Store) : Store := (dedupKeepLast df).insertionSort tsLe

/-- Forward fill: carry the most recent non-missing value into NaN cells
(line 21). -/
def ffillGo : Option ℚ → Store → Store
  | _, [] => []
  | carry, p :: rest =>
      match p.2 with
      | some q => (p.1, some q) :: ffillGo (some q) rest
      | none => (p.1, carry) :: ffillGo carry rest

def ffill (df : Store) : Store := ffillGo none df

/-- The non-missing usage values of the store, in order. -/
def storeVals (df : Store) : List ℚ := df.filterMap Prod.snd

/-- Mean of the usage column over non-missing values (pandas mean).  For a
column with no non-missing value the pandas mean is NaN; here the rational
division by zero returns 0. -/
def storeMean (df : Store) : ℚ := (storeVals df).sum / ((storeVals df).length : ℚ)

/-- Fill remaining NaN cells with the column mean (line 22).  When the
column holds no non-missing value at all the pandas fill value is itself
NaN and the column is unchanged. -/
def fillMean (df : Store) : Store :=
  if (storeVals df).length = 0 then df
  else df.map (fun p => (p.1, some (p.2.getD (storeMean df))))

/-- load_data (lines 16-23): when the csv file exists, read it, dedupe
keeping the last row per timestamp, sort, forward fill, then mean fill.
When the file does not exist the function falls through to `return df` with
the local `df` never assigned, so Python raises UnboundLocalError. -/
def load_data (fileExists : Bool) (raw : Store) : Except String Store :=
  if fileExists then Except.ok (fillMean (ffill (normalizeStore raw)))
  else Except.error "UnboundLocalError"

/-- The three abstract fitting steps of train_models, in program order.
Each fit may raise (statsmodels ARIMA, sklearn IsolationForest and Prophet
fits are all unguarded at lines 28-35); a successful ARIMA fit yields a
model summarised by its one-step forecast outcome, which may itself raise
later; a successful forest fit yields the decision_function; a successful
Prophet fit yields the per-date prediction. -/
structure TrainFns where
  arimaFit : Store → Except Unit (Except Unit ℚ)
  isoFit : Store → Except Unit (ℚ → ℚ)
  prophetFit : Store → Except Unit (ℤ → ℚ)

/-- The mutable state of SmartWaterManagement: the data frame and the three
model attributes, set independently by train_models.  `none` means the
attribute was never set, or holds an unfitted model whose use raises
(both raise at the use site). -/
structure SysState where
  df : Store
  model_fit : Option (Except Unit ℚ)
  iso_forest : Option (ℚ → ℚ)
  prophet_model : Option (ℤ → ℚ)

/-- dropna (line 26): the rows with a non-missing usage value. -/
def cleanedStore (df : Store) : Store := df.filter (fun p => p.2.isSome)

/-- train_models (lines 25-35): skipped entirely when the cleaned series is
empty; otherwise the three fits run in order and any fit exception
propagates (the error result), leaving the attributes partially updated:
an ARIMA fit exception leaves every attribute as it was (model_fit is
assigned only after fit() returns); a forest fit exception happens after
model_fit was updated and after iso_forest was reassigned to a new,
unfitted forest (so scoring it raises: `none`); a Prophet fit exception
likewise leaves a new unfitted prophet_model. -/
def train_models (tf : TrainFns) (s : SysState) : SysState × Except Unit Unit :=
  if cleanedStore s.df = [] then (s, Except.ok ())
  else
    match tf.arimaFit (cleanedStore s.df) with
    | Except.error _ => (s, Except.error ())
    | Except.ok fc =>
        match tf.isoFit (cleanedStore s.df) with
        | Except.error _ =>
            ({ s with model_fit := some fc, iso_forest := none }, Except.error ())
        | Except.ok sc =>
            match tf.prophetFit (cleanedStore s.df) with
            | Except.error _ =>
                ({ s with model_fit := some fc, iso_forest := some sc, prophet_model := none }, Except.error ())
            | Except.ok pr =>
                ({ s with model_fit := some fc, iso_forest := some sc, prophet_model := some pr }, Except.ok ())

/-- Line 55: threshold = average_usage * 1.5. -/
def threshold (avg : ℚ) : ℚ := avg * (3 / 2)

/-- Rounding of a rational to the nearest integer, ties to even (the Python
round builtin). -/
def rndHalfEven (x : ℚ) : ℤ :=
  if x - (⌊x⌋ : ℚ) < 1 / 2 then ⌊x⌋
  else if (1 : ℚ) / 2 < x - (⌊x⌋ : ℚ) then ⌊x⌋ + 1
  else if ⌊x⌋ % 2 = 0 then ⌊x⌋ else ⌊x⌋ + 1

/-- Python round(x, 2). -/
def round2 (x : ℚ) : ℚ := (rndHalfEven (x * 100) : ℚ) / 100

/-- Lines 55-64: the pure classification step, as a function of the live
flow rate, the historical mean and the outlier score.  The overuse branch
(live above mean) clamps the overuse factor only from above with
min(1, ...); the Normal branch clamps the score into [0, 100]. -/
def leakClassify (live avg score : ℚ) : String × ℚ :=
  if avg < live then
    (if live < threshold avg then "Potential Leak" else "Leak Detected",
      round2 (min 1 ((live - avg) / (threshold avg - avg)) * 100))
  else
    ("Normal", round2 (max 0 (min 100 (score * 100))))

/-- The record returned by detect_leak (lines 66-71). -/
structure LeakResult where
  live_flow_rate : ℚ
  expected_usage : ℚ
  leak_status : String
  leak_probability : ℚ
deriving DecidableEq

/-- The total_water_usage argument of detect_leak: absent (None), NaN, or a
number (line 38 guards on the first two). -/
inductive UsageInput
  | absent
  | nan
  | num (q : ℚ)

/-- pd.Timestamp.now().floor(hour) with timestamps in minutes (line 40). -/
def floorHour (t : ℤ) : ℤ := 60 * (t / 60)

/-- Lines 39-44: concatenate the new row, dedupe keeping the last write per
timestamp, sort by timestamp. -/
def appendStore (df : Store) (t : ℤ) (v : ℚ) : Store :=
  normalizeStore (df ++ [(t, some v)])

/-- Lines 48-52: expected usage from the one-step forecast, rounded to two
decimals, falling back to the rounded series mean on any exception (the
forecast raising, or the model_fit attribute never having been set). -/
def expectedUsage (s : SysState) : ℚ :=
  match s.model_fit with
  | some (Except.ok q) => round2 q
  | _ => round2 (storeMean s.df)

/-- Lines 37-46: when a numeric total_water_usage is supplied, append it at
the hour-floored current time and retrain all three models — a fitting
exception propagates as the error result, after any partial attribute
update; otherwise the state is untouched. -/
def ingest (tf : TrainFns) (u : UsageInput) (now : ℤ)
    (s : SysState) : SysState × Except Unit Unit :=
  match u with
  | UsageInput.num q =>
      train_models tf { s with df := appendStore s.df (floorHour now) q }
  | _ => (s, Except.ok ())

/-- Lines 48-71: the body after the ingest block.  The scorer access at
line 56 is outside any try block: with an unset or unfitted forest it
raises, after the expected usage was already computed, so the fallback
value is discarded and the result is an error while the state stands. -/
def detectCore (live : ℚ) (s : SysState) : SysState × Except Unit LeakResult :=
  match s.iso_forest with
  | none => (s, Except.error ())
  | some scoreFn =>
      let p := leakClassify live (storeMean s.df) (scoreFn live)
      (s, Except.ok ⟨live, expectedUsage s, p.1, p.2⟩)

/-- detect_leak (lines 37-71): the ingest/retrain block, whose fitting
exception propagates to the caller before any forecast happens, then the
classification body on the updated state. -/
def detect_leak (tf : TrainFns) (live : ℚ) (u : UsageInput)
    (now : ℤ) (s : SysState) : SysState × Except Unit LeakResult :=
  match ingest tf u now s with
  | (s2, Except.error _) => (s2, Except.error ())
  | (s2, Except.ok _) => detectCore live s2

/-- Calendar day of a timestamp in minutes. -/
def dayOf (t : ℤ) : ℤ := t / 1440

/-- The last index value of the frame, index[-1] of a sorted frame. -/
def lastIdx (df : Store) : ℤ :=
  match df.getLast? with
  | some p => p.1
  | none => 0

/-- df.last with a 7 day offset (line 77): the rows whose timestamp lies
strictly after the last index value minus 7 days (pandas searchsorted with
side right). -/
def lastWindow (df : Store) : Store :=
  df.filter (fun p => decide (lastIdx df - 10080 < p.1))

def listMinI : List ℤ → ℤ
  | [] => 0
  | [x] => x
  | x :: y :: xs => if x ≤ listMinI (y :: xs) then x else listMinI (y :: xs)

def listMaxI : List ℤ → ℤ
  | [] => 0
  | [x] => x
  | x :: y :: xs => if listMaxI (y :: xs) ≤ x then x else listMaxI (y :: xs)

/-- Sum of the non-missing usage values falling on day d. -/
def daySum (l : Store) (d : ℤ) : ℚ :=
  (storeVals (l.filter (fun p => dayOf p.1 == d))).sum

/-- resample by calendar day with sum aggregation: one row per day from the
first to the last day present in the input, empty days summing to 0, NaN
cells skipped. -/
def resampleDaily (l : Store) : List (ℤ × ℚ) :=
  if l = [] then []
  else
    (List.range (listMaxI (l.map (fun p => dayOf p.1))
        - listMinI (l.map (fun p => dayOf p.1)) + 1).toNat).map
      (fun i : ℕ => (listMinI (l.map (fun p => dayOf p.1)) + (i : ℤ),
        daySum l (listMinI (l.map (fun p => dayOf p.1)) + (i : ℤ))))

/-- The record returned by predict_weekly_usage (lines 79-82). -/
structure WeeklyForecast where
  predicted_next_week : List (ℤ × ℚ)
  last_week_usage : List (ℤ × ℚ)
deriving DecidableEq

/-- predict_weekly_usage (lines 73-82): seven future daily dates predicted
by the Prophet model, and the trailing 7 day window resampled per day.  If
the model attributes were never set the attribute access raises. -/
def predict_weekly_usage (now : ℤ) (s : SysState) : Except Unit WeeklyForecast :=
  match s.prophet_model with
  | none => Except.error ()
  | some prophetFn =>
      Except.ok
        ⟨((List.range 7).map (fun i : ℕ => now + 1440 * (i : ℤ))).map
            (fun d => (d, prophetFn d)),
          resampleDaily (lastWindow s.df)⟩

/-- Modelled from the spec wording of section 4.5: the overuse probability
with the ratio clamped between 0 and 1, for comparison with the code
formula that clamps only from above. -/
def specOveruseProbability (live avg : ℚ) : ℚ :=
  round2 (max 0 (min 1 ((live - avg) / (threshold avg - avg))) * 100)

/-- The division at line 60 executes exactly when the line 58 branch guard
holds; the code places no guard on the denominator. -/
def overuseRatioEvaluated (live avg : ℚ) : Bool := decide (avg < live)

/-- The one-step forecast path failed: either the model_fit attribute was
never set, or the stored forecast outcome is an error. -/
def forecastFailed (s : SysState) : Prop :=
  match s.model_fit with
  | none => True
  | some r => r = Except.error ()

/-- Every usage cell of the store is missing. -/
def allMissing (df : Store) : Prop := ∀ p ∈ df, p.2 = none

/-- The usage value stored at timestamp t (the last matching row, matching
the keep-last convention). -/
def lookupTs (df : Store) (t : ℤ) : Option (Option ℚ) :=
  ((df.filter (fun q => q.1 == t)).getLast?).map Prod.snd

/-- No two rows of the list share a timestamp. -/
def KeysDistinct (l : Store) : Prop := l.Pairwise (fun a b => a.1 ≠ b.1)

/-- Trivial training functions whose three fits all succeed, used to
instantiate theorems at concrete states. -/
def tf0 : TrainFns :=
  ⟨fun _ => Except.ok (Except.ok 0), fun _ => Except.ok (fun _ => 0),
    fun _ => Except.ok (fun _ => 0)⟩

/-- Training functions whose ARIMA fit raises. -/
def tfFitFail : TrainFns :=
  ⟨fun _ => Except.error (), fun _ => Except.ok (fun _ => 0),
    fun _ => Except.ok (fun _ => 0)⟩

/-- A concrete fitted state whose stored forecast outcome is an error. -/
def sErr : SysState :=
  ⟨[(0, some 4)], some (Except.error ()), some (fun _ => 0), some (fun _ => 0)⟩

/-- A concrete fitted state with an empty frame, used to instantiate the
weekly forecast theorem. -/
def s9 : SysState :=
  ⟨[], some (Except.ok 0), some (fun _ => 0), some (fun _ => 0)⟩

/-- The weekly forecast produced on s9 at time 0. -/
def w9 : WeeklyForecast :=
  ⟨[(0, 0), (1440, 0), (2880, 0), (4320, 0), (5760, 0), (7200, 0), (8640, 0)], []⟩

/-- A fitted state holding an observation at minute 1 (day 0) and one at
minute 10080 (the first minute of day 7): both lie in the trailing 7 day
window, which therefore straddles 8 calendar days. -/
def cx9 : SysState :=
  ⟨[(1, some 5), (10080, some 3)], some (Except.ok 0), some (fun _ => 0),
    some (fun _ => 0)⟩

theorem rndHalfEven_intCast (n : ℤ) : rndHalfEven ((n : ℚ)) = n := by
  rw [rndHalfEven, Int.floor_intCast]
  norm_num

theorem round2_of_eq_intCast {x : ℚ} {n : ℤ} (h : x * 100 = (n : ℚ)) :
    round2 x = (n : ℚ) / 100 := by
  rw [round2, h, rndHalfEven_intCast]

theorem rndHalfEven_nonneg {x : ℚ} (hx : 0 ≤ x) : 0 ≤ rndHalfEven x := by
  have hf : 0 ≤ ⌊x⌋ := Int.floor_nonneg.mpr hx
  rw [rndHalfEven]
  split_ifs <;> omega

theorem rndHalfEven_le {x : ℚ} {B : ℤ} (h : x ≤ (B : ℚ)) : rndHalfEven x ≤ B := by
  have hfB : ⌊x⌋ ≤ B := by
    have h2 := Int.floor_mono h
    rwa [Int.floor_intCast] at h2
  have hstep : ¬(x - (⌊x⌋ : ℚ) < 1 / 2) → ⌊x⌋ + 1 ≤ B := by
    intro hr
    push_neg at hr
    have hlt : (⌊x⌋ : ℚ) < (B : ℚ) := by linarith
    have : ⌊x⌋ < B := by exact_mod_cast hlt
    omega
  rw [rndHalfEven]
  split_ifs with h1 h2 h3
  · exact hfB
  · exact hstep h1
  · exact hfB
  · exact hstep h1

theorem round2_bounds {x : ℚ} (h0 : 0 ≤ x) (h1 : x ≤ 100) :
    0 ≤ round2 x ∧ round2 x ≤ 100 := by
  have ha : (0 : ℚ) ≤ x * 100 := mul_nonneg h0 (by norm_num)
  have hb : x * 100 ≤ ((10000 : ℤ) : ℚ) := by push_cast; linarith
  have hn0 : 0 ≤ rndHalfEven (x * 100) := rndHalfEven_nonneg ha
  have hn1 : rndHalfEven (x * 100) ≤ 10000 := rndHalfEven_le hb
  constructor
  · have hc : (0 : ℚ) ≤ (rndHalfEven (x * 100) : ℚ) := by exact_mod_cast hn0
    rw [round2]
    exact div_nonneg hc (by norm_num)
  · rw [round2, div_le_iff₀ (by norm_num : (0 : ℚ) < 100)]
    calc ((rndHalfEven (x * 100) : ℚ)) ≤ ((10000 : ℤ) : ℚ) := by exact_mod_cast hn1
    _ = 100 * 100 := by norm_num

/-- The overuse branch at live flow -5 against mean -10: the ratio is
(-5 + 10) / (-15 + 10) = -1, min keeps it, and the probability is -100. -/
theorem leakClassify_neg_example :
    leakClassify (-5) (-10) 0 = ("Leak Detected", -100) := by
  have hth : threshold (-10) = -15 := by rw [threshold]; norm_num
  rw [leakClassify, if_pos (by norm_num : (-10 : ℚ) < -5), hth,
    if_neg (by norm_num : ¬((-5 : ℚ) < -15))]
  have hr : (((-5 : ℚ)) - (-10)) / ((-15 : ℚ) - (-10)) = -1 := by norm_num
  rw [hr, min_eq_right (by norm_num : (-1 : ℚ) ≤ 1),
    round2_of_eq_intCast (by norm_num : ((-1 : ℚ)) * 100 * 100 = ((-10000 : ℤ) : ℚ))]
  norm_num

/-- The spec formula with the two-sided clamp yields 0 at the same input. -/
theorem specOveruse_neg_example : specOveruseProbability (-5) (-10) = 0 := by
  have hth : threshold (-10) = -15 := by rw [threshold]; norm_num
  rw [specOveruseProbability, hth]
  have hr : (((-5 : ℚ)) - (-10)) / ((-15 : ℚ) - (-10)) = -1 := by norm_num
  rw [hr, min_eq_right (by norm_num : (-1 : ℚ) ≤ 1),
    max_eq_left (by norm_num : (-1 : ℚ) ≤ 0),
    round2_of_eq_intCast (by norm_num : ((0 : ℚ)) * 100 * 100 = ((0 : ℤ) : ℚ))]
  norm_num

/-- The worked overuse example: mean 10, live 12 is between mean and
threshold 15, the ratio is 2/5, the probability 40. -/
theorem leakClassify_mid_example :
    leakClassify 12 10 0 = ("Potential Leak", 40) := by
  have hth : threshold 10 = 15 := by rw [threshold]; norm_num
  rw [leakClassify, if_pos (by norm_num : (10 : ℚ) < 12), hth,
    if_pos (by norm_num : (12 : ℚ) < 15)]
  have hr : ((12 : ℚ) - 10) / ((15 : ℚ) - 10) = 2 / 5 := by norm_num
  rw [hr, min_eq_right (by norm_num : (2 : ℚ) / 5 ≤ 1),
    round2_of_eq_intCast (by norm_num : ((2 : ℚ) / 5) * 100 * 100 = ((4000 : ℤ) : ℚ))]
  norm_num

/-- Claim C1 (amended): the leak probability lies in [0, 100] in the Normal
branch unconditionally, and in the overuse branch whenever the historical
mean is nonnegative.  (For a negative historical mean the overuse branch
can produce a negative probability, see the counterexample.) -/
theorem leak_probability_in_range (live avg score : ℚ)
    (h : 0 ≤ avg ∨ live ≤ avg) :
    0 ≤ (leakClassify live avg score).2 ∧ (leakClassify live avg score).2 ≤ 100 := by
  rw [leakClassify]
  by_cases hb : avg < live
  · rw [if_pos hb]
    have havg : 0 ≤ avg := by
      rcases h with h0 | h0
      · exact h0
      · exact absurd hb (not_lt.mpr h0)
    have hden : threshold avg - avg = avg / 2 := by rw [threshold]; ring
    have hr : 0 ≤ (live - avg) / (threshold avg - avg) := by
      rcases eq_or_lt_of_le havg with he | hpos
      · rw [hden, ← he]
        norm_num
      · exact le_of_lt (div_pos (by linarith) (by rw [hden]; linarith))
    have hm0 : 0 ≤ min 1 ((live - avg) / (threshold avg - avg)) :=
      le_min (by norm_num) hr
    have hm1 : min 1 ((live - avg) / (threshold avg - avg)) ≤ 1 := min_le_left _ _
    exact round2_bounds (mul_nonneg hm0 (by norm_num))
      (by nlinarith)
  · rw [if_neg hb]
    exact round2_bounds (le_max_left _ _) (max_le (by norm_num) (min_le_left _ _))

/-- Claim C1 (witness): the nonnegative-mean hypothesis holds at mean 10
with live flow 12, and the probability bounds follow. -/
theorem leak_probability_in_range_witness :
    ((0 : ℚ) ≤ 10 ∨ (12 : ℚ) ≤ 10) ∧
      (0 ≤ (leakClassify 12 10 0).2 ∧ (leakClassify 12 10 0).2 ≤ 100) :=
  ⟨Or.inl (by norm_num), leak_probability_in_range 12 10 0 (Or.inl (by norm_num))⟩

/-- Claim C1 (counterexample): at historical mean -10 and live flow -5 the
overuse branch returns probability -100, outside [0, 100]. -/
theorem leak_probability_below_zero_on_negative_mean :
    leakClassify (-5) (-10) 0 = ("Leak Detected", -100) ∧
      ¬(0 ≤ (leakClassify (-5) (-10) 0).2) := by
  refine ⟨leakClassify_neg_example, ?_⟩
  rw [leakClassify_neg_example]
  norm_num

/-- Claim C3 (amended): in the overuse branch the status is Potential Leak
below the threshold and Leak Detected at or above it, and the probability
is round(min(1, ratio) * 100, 2) — the code clamps the ratio only from
above at 1, not from below at 0; the worked example mean 10, live 12 gives
Potential Leak with probability 40. -/
theorem overuse_branch_status_and_probability :
    (∀ live avg score : ℚ, avg < live →
      leakClassify live avg score =
        (if live < threshold avg then "Potential Leak" else "Leak Detected",
          round2 (min 1 ((live - avg) / (threshold avg - avg)) * 100))) ∧
    leakClassify 12 10 0 = ("Potential Leak", 40) := by
  refine ⟨?_, leakClassify_mid_example⟩
  intro live avg score h
  rw [leakClassify, if_pos h]

/-- Claim C3 (witness): the overuse hypothesis holds at mean 10, live 12. -/
theorem overuse_branch_witness :
    ((10 : ℚ) < 12) ∧
      leakClassify 12 10 0 =
        (if (12 : ℚ) < threshold 10 then "Potential Leak" else "Leak Detected",
          round2 (min 1 (((12 : ℚ) - 10) / (threshold 10 - 10)) * 100)) :=
  ⟨by norm_num,
    overuse_branch_status_and_probability.1 12 10 0 (by norm_num)⟩

/-- Claim C3 (counterexample): at mean -10, live -5 the code returns -100
while the spec formula with the two-sided clamp returns 0: the probability
is not round(clamp(ratio, 0, 1) * 100, 2). -/
theorem overuse_probability_clamp_mismatch :
    (leakClassify (-5) (-10) 0).2 = -100 ∧
      specOveruseProbability (-5) (-10) = 0 ∧
      (leakClassify (-5) (-10) 0).2 ≠ specOveruseProbability (-5) (-10) := by
  have h1 : (leakClassify (-5) (-10) 0).2 = -100 := by rw [leakClassify_neg_example]
  refine ⟨h1, specOveruse_neg_example, ?_⟩
  rw [h1, specOveruse_neg_example]
  norm_num

/-- Claim C4: at or below the historical mean — including exact equality —
the status is Normal and the probability is the clamped, rounded outlier
score; an outlier score of -3/10 gives probability 0. -/
theorem normal_branch_status_and_probability :
    (∀ live avg score : ℚ, live ≤ avg →
      leakClassify live avg score =
        ("Normal", round2 (max 0 (min 100 (score * 100))))) ∧
    (∀ live avg : ℚ, live ≤ avg → (leakClassify live avg (-(3 / 10))).2 = 0) := by
  have hmain : ∀ live avg score : ℚ, live ≤ avg →
      leakClassify live avg score =
        ("Normal", round2 (max 0 (min 100 (score * 100)))) := by
    intro live avg score h
    rw [leakClassify, if_neg (not_lt.mpr h)]
  refine ⟨hmain, ?_⟩
  intro live avg h
  rw [hmain live avg _ h]
  have hs : (-(3 / 10) : ℚ) * 100 = -30 := by norm_num
  rw [hs, min_eq_right (by norm_num : (-30 : ℚ) ≤ 100),
    max_eq_left (by norm_num : (-30 : ℚ) ≤ 0)]
  rw [round2_of_eq_intCast (by norm_num : ((0 : ℚ)) * 100 = ((0 : ℤ) : ℚ))]
  norm_num

/-- Claim C4 (witness): live 5 is below mean 10; the Normal status and the
score -3/10 probability 0 follow. -/
theorem normal_branch_witness :
    ((5 : ℚ) ≤ 10) ∧
      leakClassify 5 10 (-(3 / 10)) =
        ("Normal", round2 (max 0 (min 100 ((-(3 / 10) : ℚ) * 100)))) ∧
      (leakClassify 5 10 (-(3 / 10))).2 = 0 :=
  ⟨by norm_num,
    normal_branch_status_and_probability.1 5 10 (-(3 / 10)) (by norm_num),
    normal_branch_status_and_probability.2 5 10 (by norm_num)⟩

/-- Claim C2 (code side): at historical mean 0 the threshold equals the
mean, yet the branch guard holds for live flow 1 and the code evaluates the
ratio whose denominator threshold minus mean is 0: the division is not
special-cased. -/
theorem overuse_division_by_zero_at_zero_mean :
    overuseRatioEvaluated 1 0 = true ∧ threshold 0 - 0 = 0 := by
  constructor
  · decide
  · simp [threshold]

/-- Claim C6 (code side): with no persisted file, load_data raises
(UnboundLocalError: the local df is only assigned inside the existence
check, and the final return executes regardless), rather than yielding an
empty store. -/
theorem load_data_missing_file_errors :
    ∀ raw : Store, load_data false raw = Except.error "UnboundLocalError" :=
  fun _ => rfl

/-- Claim C5 (amended): (1) whenever the forecast path failed — the
model_fit attribute was never set, or the stored one-step forecast outcome
is an error — the expected usage of lines 48-52 falls back to the series
mean rounded to two decimals; (2) every successful detect_leak call
reports exactly that expected-usage value for its final state; (3) an
error propagated by detect_leak comes from the ingest/retrain step (a
fitting exception) or from the unset or unfitted scorer at line 56 — never
from the guarded forecast path itself.  The original unconditional
no-propagation statement is refuted by the counterexample: a fitting
exception escapes detect_leak and the fallback is never returned. -/
theorem forecast_failure_falls_back_to_mean :
    (∀ s : SysState, forecastFailed s → expectedUsage s = round2 (storeMean s.df)) ∧
    (∀ tf live u now s res, (detect_leak tf live u now s).2 = Except.ok res →
        res.expected_usage = expectedUsage (detect_leak tf live u now s).1) ∧
    (∀ tf live u now s, (detect_leak tf live u now s).2 = Except.error () →
        (ingest tf u now s).2 = Except.error () ∨
          (detect_leak tf live u now s).1.iso_forest = none) := by
  refine ⟨?_, ?_, ?_⟩
  · intro s h
    cases hm : s.model_fit with
    | none => simp only [expectedUsage, hm]
    | some r =>
        simp only [forecastFailed, hm] at h
        simp only [expectedUsage, hm, h]
  · intro tf live u now s res hok
    rcases hi : ingest tf u now s with ⟨s2, r⟩
    rw [detect_leak] at hok ⊢
    rw [hi] at hok ⊢
    cases r with
    | error e => simp at hok
    | ok v =>
        cases hm : s2.iso_forest with
        | none =>
            simp only [detectCore, hm] at hok
            exact (Except.noConfusion hok)
        | some sc =>
            simp only [detectCore, hm, Except.ok.injEq] at hok ⊢
            rw [← hok]
  · intro tf live u now s herr
    rcases hi : ingest tf u now s with ⟨s2, r⟩
    rw [detect_leak] at herr ⊢
    rw [hi] at herr ⊢
    cases r with
    | error e => left; rfl
    | ok v =>
        right
        cases hm : s2.iso_forest with
        | none => simp only [detectCore, hm]
        | some sc =>
            simp only [detectCore, hm] at herr
            exact (Except.noConfusion herr)

/-- Claim C5 (witness): on the concrete fitted state sErr the stored
forecast outcome is an error and the expected usage equals the rounded
mean. -/
theorem forecast_failure_witness :
    forecastFailed sErr ∧ expectedUsage sErr = round2 (storeMean sErr.df) :=
  ⟨rfl, forecast_failure_falls_back_to_mean.1 sErr rfl⟩

/-- Claim C5 (counterexample): an ARIMA fitting exception during the
retrain step triggered by a numeric observation propagates out of
detect_leak: the call ends in an error, and the claimed mean fallback is
never returned to the caller. -/
theorem fit_exception_escapes_detect_leak :
    tfFitFail.arimaFit (cleanedStore (appendStore [] (floorHour 0) 5))
        = Except.error () ∧
      (detect_leak tfFitFail 0 (UsageInput.num 5) 0 ⟨[], none, none, none⟩).2
        = Except.error () :=
  ⟨rfl, rfl⟩

/-- Claim C8: an absent or NaN total usage appends nothing and retrains
nothing: the data frame and all three fitted model attributes are
unchanged by the call. -/
theorem absent_or_nan_leaves_state :
    ∀ tf live now u (s : SysState), (u = UsageInput.absent ∨ u = UsageInput.nan) →
      ((detect_leak tf live u now s).1.df = s.df ∧
        (detect_leak tf live u now s).1.model_fit = s.model_fit ∧
        (detect_leak tf live u now s).1.iso_forest = s.iso_forest ∧
        (detect_leak tf live u now s).1.prophet_model = s.prophet_model) := by
  intro tf live now u s hu
  have h1 : ingest tf u now s = (s, Except.ok ()) := by
    rcases hu with h | h <;> subst h <;> rfl
  have hfst : (detect_leak tf live u now s).1 = s := by
    rw [detect_leak, h1]
    cases hm : s.iso_forest <;> simp only [detectCore, hm]
  rw [hfst]
  exact ⟨rfl, rfl, rfl, rfl⟩

/-- Claim C8 (witness): at the concrete state sErr with an absent usage
argument the frame and the three model attributes are unchanged. -/
theorem absent_leaves_state_witness :
    (UsageInput.absent = UsageInput.absent ∨ UsageInput.absent = UsageInput.nan) ∧
      ((detect_leak tf0 0 UsageInput.absent 0 sErr).1.df = sErr.df ∧
        (detect_leak tf0 0 UsageInput.absent 0 sErr).1.model_fit = sErr.model_fit ∧
        (detect_leak tf0 0 UsageInput.absent 0 sErr).1.iso_forest = sErr.iso_forest ∧
        (detect_leak tf0 0 UsageInput.absent 0 sErr).1.prophet_model
          = sErr.prophet_model) :=
  ⟨Or.inl rfl, absent_or_nan_leaves_state tf0 0 0 UsageInput.absent sErr (Or.inl rfl)⟩

theorem mem_of_mem_dedupKeepLast {q : ℤ × Option ℚ} :
    ∀ {l : Store}, q ∈ dedupKeepLast l → q ∈ l := by
  intro l
  induction l with
  | nil => intro h; exact absurd h (List.not_mem_nil q)
  | cons p rest ih =>
      intro h
      rw [dedupKeepLast] at h
      by_cases hc : rest.any (fun r => r.1 == p.1)
      · rw [if_pos hc] at h
        exact List.mem_cons_of_mem p (ih h)
      · rw [if_neg hc] at h
        rcases List.mem_cons.mp h with h | h
        · exact h ▸ List.mem_cons_self p rest
        · exact List.mem_cons_of_mem p (ih h)

theorem mem_of_mem_normalizeStore {q : ℤ × Option ℚ} {l : Store}
    (h : q ∈ normalizeStore l) : q ∈ l :=
  mem_of_mem_dedupKeepLast
    ((List.perm_insertionSort tsLe (dedupKeepLast l)).mem_iff.mp h)

theorem allMissing_ffillGo :
    ∀ {l : Store}, allMissing l → allMissing (ffillGo none l) := by
  intro l
  induction l with
  | nil => intro _; intro p hp; exact absurd hp (List.not_mem_nil p)
  | cons p rest ih =>
      intro h
      have hp2 : p.2 = none := h p (List.mem_cons_self p rest)
      have hrest : allMissing rest := fun q hq => h q (List.mem_cons_of_mem p hq)
      intro q hq
      rw [ffillGo, hp2] at hq
      rcases List.mem_cons.mp hq with h1 | h1
      · rw [h1]
      · exact ih hrest q h1

theorem storeVals_eq_nil {l : Store} (h : allMissing l) : storeVals l = [] := by
  rw [storeVals, List.filterMap_eq_nil_iff]
  exact h

theorem fillMean_of_allMissing {l : Store} (h : allMissing l) : fillMean l = l := by
  rw [fillMean, if_pos]
  rw [storeVals_eq_nil h]
  rfl

theorem cleanedStore_eq_nil {df : Store} (h : allMissing df) :
    cleanedStore df = [] := by
  rw [cleanedStore, List.filter_eq_nil_iff]
  intro p hp
  rw [h p hp]
  simp

theorem allMissing_load {raw df : Store} (h : allMissing raw)
    (hload : load_data true raw = Except.ok df) : allMissing df := by
  have hdf : df = fillMean (ffill (normalizeStore raw)) := by
    rw [load_data] at hload
    simp only [if_pos, Except.ok.injEq] at hload
    exact hload.symm
  have hnorm : allMissing (normalizeStore raw) :=
    fun q hq => h q (mem_of_mem_normalizeStore hq)
  have hff : allMissing (ffill (normalizeStore raw)) := by
    rw [ffill]
    exact allMissing_ffillGo hnorm
  rw [hdf, fillMean_of_allMissing hff]
  exact hff

/-- Claim C10: when the cleaned series is empty, train_models is a no-op
and the previously fitted models stay; on a store loaded from data that
never held a non-missing observation, with no new observation supplied,
the models are never created and detect_leak ends in an error at the
scoring step instead of returning a result. -/
theorem untrained_store_scoring_raises :
    (∀ tf (s : SysState), cleanedStore s.df = [] →
        train_models tf s = (s, Except.ok ())) ∧
    (∀ tf (raw df : Store) (live : ℚ) (now : ℤ) u, allMissing raw →
      load_data true raw = Except.ok df →
      (u = UsageInput.absent ∨ u = UsageInput.nan) →
      train_models tf ⟨df, none, none, none⟩ = (⟨df, none, none, none⟩, Except.ok ()) ∧
      (detect_leak tf live u now ⟨df, none, none, none⟩).2 = Except.error ()) := by
  have hskip : ∀ tf (s : SysState), cleanedStore s.df = [] →
      train_models tf s = (s, Except.ok ()) := by
    intro tf s h
    rw [train_models, if_pos h]
  refine ⟨hskip, ?_⟩
  intro tf raw df live now u hraw hload hu
  have hdf : allMissing df := allMissing_load hraw hload
  refine ⟨hskip tf ⟨df, none, none, none⟩ (cleanedStore_eq_nil hdf), ?_⟩
  have h1 : ingest tf u now ⟨df, none, none, none⟩
      = (⟨df, none, none, none⟩, Except.ok ()) := by
    rcases hu with h | h <;> subst h <;> rfl
  rw [detect_leak, h1]
  rfl

/-- Claim C10 (witness): a one-row store whose only cell is missing loads
unchanged, training is skipped, and detect_leak errors at scoring. -/
theorem untrained_store_witness :
    allMissing [((0 : ℤ), (none : Option ℚ))] ∧
      load_data true [(0, none)] = Except.ok [(0, none)] ∧
      train_models tf0 ⟨[(0, none)], none, none, none⟩
        = (⟨[(0, none)], none, none, none⟩, Except.ok ()) ∧
      (detect_leak tf0 0 UsageInput.absent 0 ⟨[(0, none)], none, none, none⟩).2 =
        Except.error () := by
  have h1 : allMissing [((0 : ℤ), (none : Option ℚ))] := by
    intro p hp
    rcases List.mem_singleton.mp hp with h
    rw [h]
  have h2 : load_data true [(0, none)] = Except.ok [(0, none)] := rfl
  obtain ⟨h3, h4⟩ :=
    untrained_store_scoring_raises.2 tf0 [(0, none)] [(0, none)] 0 0
      UsageInput.absent h1 h2 (Or.inl rfl)
  exact ⟨h1, h2, h3, h4⟩

theorem any_keyFilter {t x : ℤ} (hxt : x ≠ t) (l : Store) :
    ((l.filter (fun q => !(q.1 == t))).any (fun q => q.1 == x))
      = l.any (fun q => q.1 == x) := by
  induction l with
  | nil => rfl
  | cons p rest ih =>
      rw [List.filter_cons]
      by_cases hp : p.1 = t
      · have hc : (!(p.1 == t)) = false := by simp [hp]
        rw [hc, if_neg (by simp), ih, List.any_cons]
        have hx : (p.1 == x) = false := by
          rw [beq_eq_false_iff_ne, hp]
          exact fun hh => hxt hh.symm
        rw [hx]
        simp
      · have hc : (!(p.1 == t)) = true := by simp [hp]
        rw [hc, if_pos rfl, List.any_cons, List.any_cons, ih]

theorem dedupKeepLast_append_single (l : Store) (p : ℤ × Option ℚ) :
    dedupKeepLast (l ++ [p]) =
      dedupKeepLast (l.filter (fun q => !(q.1 == p.1))) ++ [p] := by
  induction l with
  | nil => simp [dedupKeepLast]
  | cons x rest ih =>
      rw [List.cons_append, List.filter_cons]
      by_cases hx : x.1 = p.1
      · have hany : ((rest ++ [p]).any (fun q => q.1 == x.1)) = true := by
          apply List.any_eq_true.mpr
          exact ⟨p, List.mem_append_right rest (List.mem_singleton_self p),
            beq_iff_eq.mpr hx.symm⟩
        have hc : (!(x.1 == p.1)) = false := by simp [hx]
        rw [hc, if_neg (by simp)]
        simp only [dedupKeepLast, hany, if_true]
        exact ih
      · have hxb : (p.1 == x.1) = false := by
          rw [beq_eq_false_iff_ne]
          exact fun hh => hx hh.symm
        have hc : (!(x.1 == p.1)) = true := by simp [hx]
        rw [hc, if_pos rfl]
        have hsplit : ((rest ++ [p]).any (fun q => q.1 == x.1))
            = rest.any (fun q => q.1 == x.1) := by
          rw [List.any_append]
          simp [hxb]
        cases hany : rest.any (fun q => q.1 == x.1) with
        | true =>
            have h1 : dedupKeepLast (x :: (rest ++ [p])) = dedupKeepLast (rest ++ [p]) := by
              simp only [dedupKeepLast, hsplit, hany, if_true]
            have h2 : dedupKeepLast (x :: rest.filter (fun q => !(q.1 == p.1)))
                = dedupKeepLast (rest.filter (fun q => !(q.1 == p.1))) := by
              simp only [dedupKeepLast, any_keyFilter hx, hany, if_true]
            rw [h1, h2, ih]
        | false =>
            have h1 : dedupKeepLast (x :: (rest ++ [p]))
                = x :: dedupKeepLast (rest ++ [p]) := by
              simp only [dedupKeepLast, hsplit, hany, Bool.false_eq_true, if_false]
            have h2 : dedupKeepLast (x :: rest.filter (fun q => !(q.1 == p.1)))
                = x :: dedupKeepLast (rest.filter (fun q => !(q.1 == p.1))) := by
              simp only [dedupKeepLast, any_keyFilter hx, hany, Bool.false_eq_true,
                if_false]
            rw [h1, h2, ih, List.cons_append]

theorem dedupKeepLast_of_keysDistinct : ∀ {l : Store}, KeysDistinct l → dedupKeepLast l = l := by
  intro l
  induction l with
  | nil => intro _; rfl
  | cons x rest ih =>
      intro hd
      have hpair := List.pairwise_cons.mp hd
      have hany : rest.any (fun q => q.1 == x.1) = false := by
        rw [List.any_eq_false]
        intro q hq
        simp [Ne.symm (hpair.1 q hq)]
      simp only [dedupKeepLast, hany]
      rw [if_neg (by simp), ih hpair.2]

theorem keysDistinct_dedupKeepLast (l : Store) : KeysDistinct (dedupKeepLast l) := by
  induction l with
  | nil => exact List.Pairwise.nil
  | cons x rest ih =>
      cases hany : rest.any (fun q => q.1 == x.1) with
      | true => simpa only [dedupKeepLast, hany, if_pos rfl] using ih
      | false =>
          have h1 : dedupKeepLast (x :: rest) = x :: dedupKeepLast rest := by
            simp only [dedupKeepLast, hany, Bool.false_eq_true, if_false]
          rw [h1]

          apply List.Pairwise.cons
          · intro q hq
            have hq2 := mem_of_mem_dedupKeepLast hq
            have := List.any_eq_false.mp hany q hq2
            intro hcontra
            exact this (beq_iff_eq.mpr hcontra.symm)
          · exact ih

theorem length_filter_ne_of_mem {l : Store} {t : ℤ} {w : Option ℚ}
    (hd : KeysDistinct l) (hm : (t, w) ∈ l) :
    (l.filter (fun q => !(q.1 == t))).length + 1 = l.length := by
  induction l with
  | nil => cases hm
  | cons x rest ih =>
      have hpair := List.pairwise_cons.mp hd
      rw [List.filter_cons]
      rcases List.mem_cons.mp hm with hx | hx
      · have hc : (!(x.1 == t)) = false := by rw [← hx]; simp
        rw [hc, if_neg (by simp)]
        have hfilter : rest.filter (fun q => !(q.1 == t)) = rest := by
          apply List.filter_eq_self.mpr
          intro q hq
          have h2 : x.1 ≠ q.1 := hpair.1 q hq
          rw [← hx] at h2
          simp [Ne.symm h2]
        rw [hfilter, List.length_cons]
      · have h2 : x.1 ≠ t := by
          intro he
          exact (hpair.1 _ hx) (by rw [he])
        have hc : (!(x.1 == t)) = true := by simp [h2]
        rw [hc, if_pos rfl, List.length_cons, List.length_cons]
        have := ih hpair.2 hx
        omega

theorem filter_key_eq_of_mem {l : Store} {t : ℤ} {w : Option ℚ}
    (hd : KeysDistinct l) (hm : (t, w) ∈ l) :
    l.filter (fun q => q.1 == t) = [(t, w)] := by
  induction l with
  | nil => cases hm
  | cons x rest ih =>
      have hpair := List.pairwise_cons.mp hd
      rw [List.filter_cons]
      rcases List.mem_cons.mp hm with hx | hx
      · have hc : (x.1 == t) = true := by rw [← hx]; simp
        rw [hc, if_pos rfl]
        have hfilter : rest.filter (fun q => q.1 == t) = [] := by
          rw [List.filter_eq_nil_iff]
          intro q hq
          have h2 : x.1 ≠ q.1 := hpair.1 q hq
          rw [← hx] at h2
          simp [Ne.symm h2]
        rw [hfilter, ← hx]
      · have h2 : x.1 ≠ t := by
          intro he
          exact (hpair.1 _ hx) (by rw [he])
        have hc : (x.1 == t) = false := by simp [h2]
        rw [hc, if_neg (by simp)]
        exact ih hpair.2 hx

theorem keysDistinct_normalizeStore (l : Store) : KeysDistinct (normalizeStore l) :=
  (List.perm_insertionSort tsLe (dedupKeepLast l)).symm.pairwise
    (keysDistinct_dedupKeepLast l) (fun h => Ne.symm h)

theorem mem_appendStore (df : Store) (t : ℤ) (v : ℚ) :
    (t, some v) ∈ appendStore df t v := by
  rw [appendStore, normalizeStore]
  apply (List.perm_insertionSort tsLe _).mem_iff.mpr
  rw [dedupKeepLast_append_single]
  exact List.mem_append_right _ (List.mem_singleton_self _)

theorem length_appendStore_of_mem {df : Store} {t : ℤ} {v : ℚ}
    (hd : KeysDistinct df) (hm : (t, some v) ∈ df) :
    (appendStore df t v).length = df.length := by
  rw [appendStore, normalizeStore, (List.perm_insertionSort tsLe _).length_eq,
    dedupKeepLast_append_single, List.length_append]
  have hfd : KeysDistinct (df.filter (fun q => !(q.1 == t))) :=
    List.Pairwise.filter _ hd
  rw [dedupKeepLast_of_keysDistinct hfd]
  have hlen := length_filter_ne_of_mem hd hm
  simp only [List.length_singleton]
  omega

theorem lookupTs_of_mem {df : Store} {t : ℤ} {w : Option ℚ}
    (hd : KeysDistinct df) (hm : (t, w) ∈ df) :
    lookupTs df t = some w := by
  rw [lookupTs, filter_key_eq_of_mem hd hm]
  rfl

/-- Claim C7: appending the same (timestamp, value) pair again leaves the
store size unchanged, and the value stored at that timestamp is the last
write, after the first append and after any repetition. -/
theorem append_idempotent (df : Store) (t : ℤ) (v : ℚ) :
    (appendStore (appendStore df t v) t v).length = (appendStore df t v).length ∧
    lookupTs (appendStore df t v) t = some (some v) ∧
    lookupTs (appendStore (appendStore df t v) t v) t = some (some v) := by
  have hd1 : KeysDistinct (appendStore df t v) := keysDistinct_normalizeStore _
  have hm1 : (t, some v) ∈ appendStore df t v := mem_appendStore df t v
  exact ⟨length_appendStore_of_mem hd1 hm1, lookupTs_of_mem hd1 hm1,
    lookupTs_of_mem (keysDistinct_normalizeStore _) (mem_appendStore _ t v)⟩

theorem listMinI_mem : ∀ {l : List ℤ}, l ≠ [] → listMinI l ∈ l := by
  intro l
  induction l with
  | nil => intro h; exact absurd rfl h
  | cons x rest ih =>
      intro _
      cases rest with
      | nil => rw [listMinI]; exact List.mem_singleton_self x
      | cons y ys =>
          rw [listMinI]
          by_cases h : x ≤ listMinI (y :: ys)
          · rw [if_pos h]; exact List.mem_cons_self _ _
          · rw [if_neg h]
            exact List.mem_cons_of_mem x (ih (by simp))

theorem listMaxI_mem : ∀ {l : List ℤ}, l ≠ [] → listMaxI l ∈ l := by
  intro l
  induction l with
  | nil => intro h; exact absurd rfl h
  | cons x rest ih =>
      intro _
      cases rest with
      | nil => rw [listMaxI]; exact List.mem_singleton_self x
      | cons y ys =>
          rw [listMaxI]
          by_cases h : listMaxI (y :: ys) ≤ x
          · rw [if_pos h]; exact List.mem_cons_self _ _
          · rw [if_neg h]
            exact List.mem_cons_of_mem x (ih (by simp))

theorem resampleDaily_lastWindow_le (df : Store)
    (hsort : ∀ p ∈ df, p.1 ≤ lastIdx df) :
    (resampleDaily (lastWindow df)).length ≤ 8 := by
  by_cases hw : lastWindow df = []
  · rw [resampleDaily, if_pos hw]
    simp
  · rw [resampleDaily, if_neg hw]
    rw [List.length_map, List.length_range]
    have hne : (lastWindow df).map (fun p => dayOf p.1) ≠ [] := by
      simpa using hw
    obtain ⟨pmax, hpmax, hpmax2⟩ := List.mem_map.mp (listMaxI_mem hne)
    obtain ⟨pmin, hpmin, hpmin2⟩ := List.mem_map.mp (listMinI_mem hne)
    have hb : ∀ p ∈ lastWindow df, lastIdx df - 10080 < p.1 ∧ p.1 ≤ lastIdx df := by
      intro p hp
      have h1 := List.mem_filter.mp hp
      exact ⟨by simpa using h1.2, hsort p h1.1⟩
    obtain ⟨hmax1, hmax2⟩ := hb pmax hpmax
    obtain ⟨hmin1, hmin2⟩ := hb pmin hpmin
    rw [← hpmax2, ← hpmin2, dayOf, dayOf]
    omega

/-- Claim C9 (amended): a successful predict_weekly_usage returns exactly 7
predicted entries, and at most 8 trailing entries — the trailing 7 day
window, bounded strictly below by the last timestamp minus 7 days, can
straddle 8 calendar days. -/
theorem weekly_forecast_lengths (now : ℤ) (s : SysState) (w : WeeklyForecast)
    (hsort : ∀ p ∈ s.df, p.1 ≤ lastIdx s.df)
    (hok : predict_weekly_usage now s = Except.ok w) :
    w.predicted_next_week.length = 7 ∧ w.last_week_usage.length ≤ 8 := by
  rw [predict_weekly_usage] at hok
  cases hm : s.prophet_model with
  | none => rw [hm] at hok; cases hok
  | some prophetFn =>
      rw [hm] at hok
      injection hok with hw
      rw [← hw]
      constructor
      · simp
      · exact resampleDaily_lastWindow_le s.df hsort

/-- Claim C9 (witness): the empty-frame fitted state satisfies the ordering
hypothesis and yields 7 predicted entries and an empty trailing list. -/
theorem weekly_forecast_lengths_witness :
    (∀ p ∈ s9.df, p.1 ≤ lastIdx s9.df) ∧
      predict_weekly_usage 0 s9 = Except.ok w9 ∧
      (w9.predicted_next_week.length = 7 ∧ w9.last_week_usage.length ≤ 8) := by
  have h1 : ∀ p ∈ s9.df, p.1 ≤ lastIdx s9.df := fun p hp =>
    absurd hp (List.not_mem_nil p)
  have h2 : predict_weekly_usage 0 s9 = Except.ok w9 := rfl
  exact ⟨h1, h2, weekly_forecast_lengths 0 s9 w9 h1 h2⟩

/-- Claim C9 (counterexample): on the state cx9 — observations at minute 1
and at minute 10080 — the trailing window spans days 0 through 7 and
last_week_usage has 8 entries, more than the claimed maximum of 7. -/
theorem last_week_eight_entries :
    ((predict_weekly_usage 0 cx9).toOption.map
      (fun w => w.last_week_usage.length)) = some 8 := rfl

end HydroSense
